import Mathlib

/-!
Verification development for the UI-management core of the repository
(`src/ui_manager.h`, classes `ui_adaptor` / namespace `ui_manager`).

The header declares the interface: a process-wide stack of UI handles,
per-handle redraw and screen-resize callbacks, invalidation flags, a
blocking (`disable_uis_below`) construction variant, and the three
scheduler entry points `redraw`, `redraw_invalidated` and
`screen_resized`.  The implementation file (`ui_manager.cpp`) is not part
of the provided sources, so the operational behaviour below is modelled
from the specification document (sections 3, 4.2, 4.3, 4.4) and from the
contracts documented in the header itself.  Panel content is opaque: a
redraw callback only paints, and a screen-resize callback establishes the
handle's rectangle; the rectangle a resize callback would establish is
supplied by an environment parameter.
-/

/-- The `point` type of `point.h`: a grid coordinate. -/
structure point where
  x : Int
  y : Int
deriving DecidableEq, Repr

/-- The `point_zero` constant of `point.h`. -/
def point_zero : point := ⟨0, 0⟩

/-- Componentwise addition of points. -/
def point.add (a b : point) : point := ⟨a.x + b.x, a.y + b.y⟩

/-- Componentwise subtraction of points. -/
def point.sub (a b : point) : point := ⟨a.x - b.x, a.y - b.y⟩

/-- The `rectangle<point>` type of `cuboid_rectangle.h`: a half-open
rectangle given by its top-left (`p_min`) and past-the-end bottom-right
(`p_max`) grid coordinates. -/
structure rectangle where
  p_min : point
  p_max : point
deriving DecidableEq, Repr

/-- Point membership in a half-open rectangle. -/
def rectangle.contains_point (r : rectangle) (p : point) : Bool :=
  decide (r.p_min.x ≤ p.x) && decide (p.x < r.p_max.x) &&
  decide (r.p_min.y ≤ p.y) && decide (p.y < r.p_max.y)

/-- Modelled from the spec: RegionGeometry `overlaps(a,b)` — whether two
rectangles have a nonempty intersection (degenerate rectangles overlap
nothing). -/
def rectangle.overlaps (a b : rectangle) : Bool :=
  decide (max a.p_min.x b.p_min.x < min a.p_max.x b.p_max.x) &&
  decide (max a.p_min.y b.p_min.y < min a.p_max.y b.p_max.y)

/-- A rectangle is empty (zero-size) when it has no interior cells. -/
def rectangle.is_empty (r : rectangle) : Bool :=
  decide (r.p_max.x ≤ r.p_min.x) || decide (r.p_max.y ≤ r.p_min.y)

/-- Modelled from the spec: the shared dirty region is the accumulated
union of rectangles needing repaint; it is represented as a list of
rectangles whose meaning is the union of their cells. -/
abbrev region := List rectangle

/-- A point lies in a region when some accumulated rectangle covers it. -/
def region_contains (reg : region) (p : point) : Bool :=
  reg.any (fun r => r.contains_point p)

/-- A rectangle intersects a region when it overlaps some accumulated
rectangle of the region. -/
def intersects_region (r : rectangle) (reg : region) : Bool :=
  reg.any (fun q => r.overlaps q)

/-- The per-handle state of a `ui_adaptor` (header lines 168–175), plus a
stable identity `uid` standing for the C++ object identity that the UI
stack stores non-owning references to.  The two callbacks are opaque
closures; they are represented by numeric labels (`0` = none, as after
construction or `reset`). -/
structure ui_adaptor where
  uid : Nat
  dimensions : rectangle
  redraw_cb : Nat
  screen_resized_cb : Nat
  disabling_uis_below : Bool
  invalidated : Bool
  deferred_resize : Bool
deriving DecidableEq, Repr

/-- The default (empty) rectangle a handle starts with. -/
def empty_rect : rectangle := ⟨point_zero, point_zero⟩

/-- Modelled from the spec: the process-wide PanelStack state — the
ordered sequence of live handles (head = bottom/oldest, last = top/most
recent), the shared dirty-region accumulator, the full surface extent,
and the next fresh handle identity. -/
structure ui_manager_state where
  ui_stack : List ui_adaptor
  dirty_region : region
  surface : rectangle
  next_uid : Nat
deriving DecidableEq, Repr

/-- The initial state: empty stack, clean dirty region. -/
def init_state (surf : rectangle) : ui_manager_state :=
  { ui_stack := [], dirty_region := [], surface := surf, next_uid := 0 }

/-- Callback invocations and the end-of-pass flush observed during a
pass, identified by handle identity. -/
inductive ui_event where
  | resize_call (uid : Nat)
  | redraw_call (uid : Nat)
  | flush_call (reg : region)
deriving DecidableEq, Repr

/-- Modelled from the spec: the rectangle a handle's screen-resize
callback would establish (via `position`) is external panel layout
logic, supplied as an environment indexed by handle identity. -/
abbrev resize_env := Nat → rectangle

/-- Whether some handle of `t` (the handles above a given one) blocks
the UIs below it. -/
def blocked_above (t : List ui_adaptor) : Bool :=
  t.any (fun h => h.disabling_uis_below)

/-- Update the handle with identity `u` in place, leaving stack order
unchanged. -/
def update_ui (u : Nat) (f : ui_adaptor → ui_adaptor)
    (l : List ui_adaptor) : List ui_adaptor :=
  l.map (fun h => if h.uid = u then f h else h)

/-- Look up the live handle with identity `u`. -/
def find_ui (u : Nat) (l : List ui_adaptor) : Option ui_adaptor :=
  l.find? (fun h => decide (h.uid = u))

/-- Modelled from the spec: `ui_adaptor::position(topleft, size)` — set
the handle's rectangle and queue invalidation of the new rectangle
(ui_manager.h lines 100–106; spec §4.2 `set_rectangle`). -/
def position (s : ui_manager_state) (u : Nat) (topleft size : point) :
    ui_manager_state :=
  { s with
    ui_stack := update_ui u
      (fun h => { h with dimensions := ⟨topleft, topleft.add size⟩ }) s.ui_stack,
    dirty_region := (⟨topleft, topleft.add size⟩ : rectangle) :: s.dirty_region }

/-- Modelled from the spec: a `catacurses::window` is consumed only as an
opaque window/region descriptor with queryable position and size; a null
window is `none`. -/
abbrev window := Option rectangle

/-- The position a window descriptor reports; a null window reports zero. -/
def window_begin : window → point
  | none => point_zero
  | some w => w.p_min

/-- The size a window descriptor reports; a null window reports zero. -/
def window_size : window → point
  | none => point_zero
  | some w => w.p_max.sub w.p_min

/-- Modelled from the spec: `ui_adaptor::position_from_window(win)` — set
the position and size of the UI to those of `win` (ui_manager.h lines
91–99). -/
def position_from_window (s : ui_manager_state) (u : Nat) (win : window) :
    ui_manager_state :=
  position s u (window_begin win) (window_size win)

/-- Modelled from the spec: `ui_adaptor::on_redraw` — replace the redraw
callback. -/
def on_redraw (s : ui_manager_state) (u : Nat) (cb : Nat) : ui_manager_state :=
  { s with ui_stack := update_ui u (fun h => { h with redraw_cb := cb }) s.ui_stack }

/-- Modelled from the spec: `ui_adaptor::on_screen_resize` — replace the
screen-resize callback. -/
def on_screen_resize (s : ui_manager_state) (u : Nat) (cb : Nat) :
    ui_manager_state :=
  { s with ui_stack := update_ui u (fun h => { h with screen_resized_cb := cb }) s.ui_stack }

/-- Modelled from the spec: `ui_adaptor::mark_resize()` — set
`deferred_resize`; the resize callback itself is deferred to the next
scheduler pass (ui_manager.h lines 136–143; spec §4.2 `mark_resize`). -/
def mark_resize (s : ui_manager_state) (u : Nat) : ui_manager_state :=
  { s with ui_stack := update_ui u (fun h => { h with deferred_resize := true }) s.ui_stack }

/-- Modelled from the spec: `ui_adaptor::invalidate_ui()` — set the
`invalidated` flag and mark the handle's current rectangle dirty in the
shared invalidation region (ui_manager.h lines 145–151; spec §4.2
`mark_invalidated`). -/
def invalidate_ui (s : ui_manager_state) (u : Nat) : ui_manager_state :=
  { s with
    ui_stack := update_ui u (fun h => { h with invalidated := true }) s.ui_stack,
    dirty_region :=
      match find_ui u s.ui_stack with
      | some h => h.dimensions :: s.dirty_region
      | none => s.dirty_region }

/-- Modelled from the spec: `ui_adaptor::reset()` — clear callbacks and
dimensions and invalidate the vacated rectangle (ui_manager.h lines
153–157; spec §4.2 `reset`). -/
def reset (s : ui_manager_state) (u : Nat) : ui_manager_state :=
  { s with
    ui_stack := update_ui u
      (fun h => { h with dimensions := empty_rect, redraw_cb := 0,
                         screen_resized_cb := 0 }) s.ui_stack,
    dirty_region :=
      match find_ui u s.ui_stack with
      | some h => h.dimensions :: s.dirty_region
      | none => s.dirty_region }

/-- Modelled from the spec: `ui_adaptor` construction — a fresh handle
(empty rectangle, no callbacks, clear flags) is pushed on top of the UI
stack; the blocking variant (`disable_uis_below`) additionally sets
`disabling_uis_below` and immediately invalidates the entire surface
extent (ui_manager.h lines 70–83; spec §4.2, §4.3 `push`). -/
def push_ui (s : ui_manager_state) (blocking : Bool) : ui_manager_state :=
  { s with
    ui_stack := s.ui_stack ++
      [⟨s.next_uid, empty_rect, 0, 0, blocking, false, false⟩],
    next_uid := s.next_uid + 1,
    dirty_region := if blocking then s.surface :: s.dirty_region else s.dirty_region }

/-- Modelled from the spec: `ui_adaptor` destruction — erase the handle
wherever it occurs in the stack, add its last-known rectangle to the
dirty region, and, if it was a blocking handle, invalidate the full
surface extent (the `reenable_uis_below` signal) (ui_manager.h line 86;
spec §4.3 `remove`). -/
def remove_ui (s : ui_manager_state) (u : Nat) : ui_manager_state :=
  match find_ui u s.ui_stack with
  | none => s
  | some h =>
    { s with
      ui_stack := s.ui_stack.filter (fun x => decide (x.uid ≠ u)),
      dirty_region :=
        (if h.disabling_uis_below then [h.dimensions, s.surface]
         else [h.dimensions]) ++ s.dirty_region }

/-- Modelled from the spec: the resize pass (spec §4.3 `resize_pass`) —
walk the stack bottom-to-top; a handle with a blocking handle above it is
frozen; an eligible handle with `deferred_resize` set has its resize
callback invoked (establishing the environment-supplied rectangle and
queueing its invalidation), and the flag cleared.  Returns the updated
handle list, the updated dirty region, and the invocation events in
order. -/
def resize_step (env : resize_env) (d : region) :
    List ui_adaptor → List ui_adaptor × region × List ui_event
  | [] => ([], d, [])
  | h :: t =>
    if blocked_above t then
      let r := resize_step env d t
      (h :: r.1, r.2.1, r.2.2)
    else if h.deferred_resize then
      let r := resize_step env (env h.uid :: d) t
      ({ h with dimensions := env h.uid, deferred_resize := false } :: r.1,
        r.2.1, ui_event.resize_call h.uid :: r.2.2)
    else
      let r := resize_step env d t
      (h :: r.1, r.2.1, r.2.2)

/-- The resize pass lifted to the manager state. -/
def resize_pass (env : resize_env) (s : ui_manager_state) :
    ui_manager_state × List ui_event :=
  ({ s with ui_stack := (resize_step env s.dirty_region s.ui_stack).1,
            dirty_region := (resize_step env s.dirty_region s.ui_stack).2.1 },
    (resize_step env s.dirty_region s.ui_stack).2.2)

/-- Modelled from the spec: the redraw pass body (spec §4.3
`redraw_pass`) — walk the stack bottom-to-top; a handle with a blocking
handle above it is frozen; an eligible handle whose rectangle intersects
the dirty region has its redraw callback invoked and its `invalidated`
flag cleared.  Returns the updated handle list, the rectangles touched,
and the invocation events in order. -/
def redraw_step (d : region) :
    List ui_adaptor → List ui_adaptor × List rectangle × List ui_event
  | [] => ([], [], [])
  | h :: t =>
    if blocked_above t then
      let r := redraw_step d t
      (h :: r.1, r.2.1, r.2.2)
    else if intersects_region h.dimensions d then
      let r := redraw_step d t
      ({ h with invalidated := false } :: r.1, h.dimensions :: r.2.1,
        ui_event.redraw_call h.uid :: r.2.2)
    else
      let r := redraw_step d t
      (h :: r.1, r.2.1, r.2.2)

/-- Modelled from the spec: the redraw pass — run the redraw sweep, then
flush the union of all touched rectangles to the rendering backend
exactly once, then clear the dirty region (spec §4.3 `redraw_pass`). -/
def redraw_pass (s : ui_manager_state) : ui_manager_state × List ui_event :=
  ({ s with ui_stack := (redraw_step s.dirty_region s.ui_stack).1,
            dirty_region := [] },
    (redraw_step s.dirty_region s.ui_stack).2.2 ++
      [ui_event.flush_call (redraw_step s.dirty_region s.ui_stack).2.1])

/-- Mark the topmost handle invalidated and collect its rectangle (the
top handle is always eligible, having nothing above it). -/
def mark_top_invalid : List ui_adaptor → List ui_adaptor × region
  | [] => ([], [])
  | [h] => ([{ h with invalidated := true }], [h.dimensions])
  | h :: t =>
    let r := mark_top_invalid t
    (h :: r.1, r.2)

/-- Modelled from the spec: `ui_manager::invalidate(rect, ...)` — add a
portion of the screen to the shared dirty region (ui_manager.h lines
193–198).  The `reenable_uis_below` signal is raised by handle removal,
which is modelled directly in `remove_ui`. -/
def ui_manager.invalidate (s : ui_manager_state) (rect : rectangle)
    (_reenable : Bool) : ui_manager_state :=
  { s with dirty_region := rect :: s.dirty_region }

/-- Modelled from the spec: `ui_manager::redraw_invalidated()` — run the
resize pass, then the redraw pass, without forcing the top handle dirty
(spec §4.4). -/
def ui_manager.redraw_invalidated (env : resize_env) (s : ui_manager_state) :
    ui_manager_state × List ui_event :=
  ((redraw_pass (resize_pass env s).1).1,
    (resize_pass env s).2 ++ (redraw_pass (resize_pass env s).1).2)

/-- Modelled from the spec: `ui_manager::redraw()` — invalidate the
topmost (always eligible) handle's rectangle, then run the resize pass
and the redraw pass (spec §4.4). -/
def ui_manager.redraw (env : resize_env) (s : ui_manager_state) :
    ui_manager_state × List ui_event :=
  ui_manager.redraw_invalidated env
    { s with ui_stack := (mark_top_invalid s.ui_stack).1,
             dirty_region := (mark_top_invalid s.ui_stack).2 ++ s.dirty_region }

/-- Modelled from the spec: `ui_manager::screen_resized()` — mark every
live handle's `deferred_resize`, invalidate the full surface extent, then
behave like `redraw()` (spec §4.4). -/
def ui_manager.screen_resized (env : resize_env) (s : ui_manager_state) :
    ui_manager_state × List ui_event :=
  ui_manager.redraw env
    { s with ui_stack := s.ui_stack.map (fun h => { h with deferred_resize := true }),
             dirty_region := s.surface :: s.dirty_region }

/-- Handle lifetime events whose ordering the stack must tolerate:
construction (push) and owner-determined destruction (remove). -/
inductive ui_op where
  | push (blocking : Bool)
  | remove (uid : Nat)
deriving DecidableEq, Repr

/-- Run one lifetime event. -/
def run_op (s : ui_manager_state) : ui_op → ui_manager_state
  | ui_op.push b => push_ui s b
  | ui_op.remove u => remove_ui s u

/-- Run a sequence of lifetime events from the initial state. -/
def run_ops (surf : rectangle) (ops : List ui_op) : ui_manager_state :=
  ops.foldl run_op (init_state surf)

/-! ### Basic geometry lemmas -/

theorem intersects_region_nil (r : rectangle) : intersects_region r [] = false := rfl

theorem overlaps_of_is_empty {r : rectangle} (h : r.is_empty = true)
    (q : rectangle) : r.overlaps q = false := by
  simp only [rectangle.is_empty, Bool.or_eq_true, decide_eq_true_eq] at h
  simp only [rectangle.overlaps, Bool.and_eq_false_iff, decide_eq_false_iff_not, not_lt]
  rcases h with h | h
  · left; exact le_trans (min_le_left _ _) (le_trans h (le_max_left _ _))
  · right; exact le_trans (min_le_left _ _) (le_trans h (le_max_left _ _))

theorem intersects_region_of_is_empty {r : rectangle} (h : r.is_empty = true)
    (reg : region) : intersects_region r reg = false := by
  induction reg with
  | nil => rfl
  | cons q t ih =>
    simp only [intersects_region, List.any_cons, Bool.or_eq_false_iff] at *
    exact ⟨overlaps_of_is_empty h q, ih⟩

/-! ### Signatures of handles

Eligibility for the passes depends only on each handle's identity, its
blocking flag and (for the resize pass) its deferred-resize flag.  The
following projections let the pass bookkeeping be reasoned about on
plain tuples. -/

/-- Identity and blocking flag of a handle. -/
def ud (h : ui_adaptor) : Nat × Bool := (h.uid, h.disabling_uis_below)

/-- Identity, blocking flag and deferred-resize flag of a handle. -/
def udd (h : ui_adaptor) : Nat × Bool × Bool :=
  (h.uid, h.disabling_uis_below, h.deferred_resize)

/-- The identities of the eligible pending handles: those with no
blocking handle above them and the deferred-resize flag set, in
bottom-to-top order (tuples are `(uid, disabling, deferred)`). -/
def epu : List (Nat × Bool × Bool) → List Nat
  | [] => []
  | x :: t => if t.any (fun y => y.2.1) then epu t
              else if x.2.2 then x.1 :: epu t
              else epu t

/-- The handles a redraw sweep over dirty region `d` invokes: the
eligible ones whose rectangle intersects `d`, in bottom-to-top order. -/
def drawn_uis (d : region) : List ui_adaptor → List ui_adaptor
  | [] => []
  | h :: t => if blocked_above t then drawn_uis d t
              else if intersects_region h.dimensions d then h :: drawn_uis d t
              else drawn_uis d t

theorem blocked_above_map_ud (t : List ui_adaptor) :
    (t.map ud).any (fun y => y.2) = blocked_above t := by
  induction t with
  | nil => rfl
  | cons h t ih => simp only [List.map_cons, List.any_cons, ud, blocked_above] at *; rw [ih]

theorem blocked_above_map_udd (t : List ui_adaptor) :
    (t.map udd).any (fun y => y.2.1) = blocked_above t := by
  induction t with
  | nil => rfl
  | cons h t ih => simp only [List.map_cons, List.any_cons, udd, blocked_above] at *; rw [ih]

theorem ud_of_udd_map (l : List ui_adaptor) :
    (l.map udd).map (fun x => (x.1, x.2.1)) = l.map ud := by
  induction l with
  | nil => rfl
  | cons h t ih => simp only [List.map_cons, ud, udd, ih]

/-! ### Resize-pass lemmas -/

theorem resize_step_map_ud (env : resize_env) (d : region) (l : List ui_adaptor) :
    ((resize_step env d l).1).map ud = l.map ud := by
  induction l generalizing d with
  | nil => rfl
  | cons h t ih =>
    cases hb : blocked_above t with
    | true => simp [resize_step, hb, ih]
    | false =>
      cases hd : h.deferred_resize with
      | true => simp [resize_step, hb, hd, ih, ud]
      | false => simp [resize_step, hb, hd, ih]

theorem resize_step_events (env : resize_env) (d : region) (l : List ui_adaptor) :
    (resize_step env d l).2.2 = (epu (l.map udd)).map ui_event.resize_call := by
  induction l generalizing d with
  | nil => rfl
  | cons h t ih =>
    cases hb : blocked_above t with
    | true =>
      have hb2 : (t.map udd).any (fun y => y.2.1) = true := by
        rw [blocked_above_map_udd]; exact hb
      simp [resize_step, epu, hb, hb2, ih]
    | false =>
      have hb2 : (t.map udd).any (fun y => y.2.1) = false := by
        rw [blocked_above_map_udd]; exact hb
      cases hd : h.deferred_resize with
      | true => simp [resize_step, epu, hb, hb2, hd, ih, udd]
      | false => simp [resize_step, epu, hb, hb2, hd, ih, udd]

theorem resize_step_blocked (env : resize_env) (d : region) (l : List ui_adaptor) :
    blocked_above (resize_step env d l).1 = blocked_above l := by
  rw [← blocked_above_map_ud, ← blocked_above_map_ud, resize_step_map_ud]

theorem resize_step_epu_out (env : resize_env) (d : region) (l : List ui_adaptor) :
    epu (((resize_step env d l).1).map udd) = [] := by
  induction l generalizing d with
  | nil => rfl
  | cons h t ih =>
    cases hb : blocked_above t with
    | true =>
      have hb2 : (((resize_step env d t).1).map udd).any (fun y => y.2.1) = true := by
        rw [blocked_above_map_udd, resize_step_blocked]; exact hb
      simp [resize_step, hb, epu, hb2, ih]
    | false =>
      cases hd : h.deferred_resize with
      | true =>
        have hb2 : (((resize_step env (env h.uid :: d) t).1).map udd).any
            (fun y => y.2.1) = false := by
          rw [blocked_above_map_udd, resize_step_blocked]; exact hb
        simp [resize_step, hb, hd, epu, hb2, udd, ih]
      | false =>
        have hb2 : (((resize_step env d t).1).map udd).any (fun y => y.2.1) = false := by
          rw [blocked_above_map_udd, resize_step_blocked]; exact hb
        simp [resize_step, hb, hd, epu, hb2, udd, ih]

theorem resize_step_noop (env : resize_env) (d : region) (l : List ui_adaptor)
    (hev : (resize_step env d l).2.2 = []) : resize_step env d l = (l, d, []) := by
  induction l generalizing d with
  | nil => rfl
  | cons h t ih =>
    cases hb : blocked_above t with
    | true =>
      simp only [resize_step, hb, if_true] at hev ⊢
      have h3 := ih d hev
      simp [h3]
    | false =>
      cases hd : h.deferred_resize with
      | true => simp [resize_step, hb, hd] at hev
      | false =>
        simp only [resize_step, hb, hd, if_false, Bool.false_eq_true, if_true] at hev ⊢
        have h3 := ih d hev
        simp [h3]

theorem resize_step_append_blocked (env : resize_env) (d : region)
    (l₁ l₂ : List ui_adaptor) (hb : blocked_above l₂ = true) :
    resize_step env d (l₁ ++ l₂) =
      (l₁ ++ (resize_step env d l₂).1, (resize_step env d l₂).2.1,
        (resize_step env d l₂).2.2) := by
  induction l₁ with
  | nil => rfl
  | cons a t ih =>
    have hba : blocked_above (t ++ l₂) = true := by
      unfold blocked_above at hb ⊢
      simp [List.any_append, hb]
    simp [resize_step, hba, ih]

theorem resize_step_complete (env : resize_env) (d : region)
    (l₁ l₂ : List ui_adaptor) (h : ui_adaptor)
    (hb : blocked_above l₂ = false) (hd : h.deferred_resize = true) :
    ui_event.resize_call h.uid ∈ (resize_step env d (l₁ ++ h :: l₂)).2.2 := by
  induction l₁ generalizing d with
  | nil => simp [resize_step, hb, hd]
  | cons a t ih =>
    cases hab : blocked_above (t ++ h :: l₂) with
    | true =>
      simp only [List.cons_append, resize_step, List.append_eq, hab, if_true]
      exact ih d
    | false =>
      cases had : a.deferred_resize with
      | true =>
        simp only [List.cons_append, resize_step, List.append_eq, hab, had,
          Bool.false_eq_true, if_false, if_true]
        exact List.mem_cons_of_mem _ (ih _)
      | false =>
        simp only [List.cons_append, resize_step, List.append_eq, hab, had,
          Bool.false_eq_true, if_false]
        exact ih d

/-! ### Redraw-pass lemmas -/

theorem redraw_step_map_udd (d : region) (l : List ui_adaptor) :
    ((redraw_step d l).1).map udd = l.map udd := by
  induction l with
  | nil => rfl
  | cons h t ih =>
    cases hb : blocked_above t with
    | true => simp [redraw_step, hb, ih]
    | false =>
      cases hi : intersects_region h.dimensions d with
      | true => simp [redraw_step, hb, hi, ih, udd]
      | false => simp [redraw_step, hb, hi, ih]

theorem redraw_step_map_uid (d : region) (l : List ui_adaptor) :
    ((redraw_step d l).1).map ui_adaptor.uid = l.map ui_adaptor.uid := by
  induction l with
  | nil => rfl
  | cons h t ih =>
    cases hb : blocked_above t with
    | true => simp [redraw_step, hb, ih]
    | false =>
      cases hi : intersects_region h.dimensions d with
      | true => simp [redraw_step, hb, hi, ih]
      | false => simp [redraw_step, hb, hi, ih]

theorem redraw_step_blocked (d : region) (l : List ui_adaptor) :
    blocked_above (redraw_step d l).1 = blocked_above l := by
  rw [← blocked_above_map_udd, ← blocked_above_map_udd, redraw_step_map_udd]

theorem redraw_step_touched (d : region) (l : List ui_adaptor) :
    (redraw_step d l).2.1 = (drawn_uis d l).map (fun h => h.dimensions) := by
  induction l with
  | nil => rfl
  | cons h t ih =>
    cases hb : blocked_above t with
    | true => simp [redraw_step, drawn_uis, hb, ih]
    | false =>
      cases hi : intersects_region h.dimensions d with
      | true => simp [redraw_step, drawn_uis, hb, hi, ih]
      | false => simp [redraw_step, drawn_uis, hb, hi, ih]

theorem redraw_step_events (d : region) (l : List ui_adaptor) :
    (redraw_step d l).2.2 = (drawn_uis d l).map (fun h => ui_event.redraw_call h.uid) := by
  induction l with
  | nil => rfl
  | cons h t ih =>
    cases hb : blocked_above t with
    | true => simp [redraw_step, drawn_uis, hb, ih]
    | false =>
      cases hi : intersects_region h.dimensions d with
      | true => simp [redraw_step, drawn_uis, hb, hi, ih]
      | false => simp [redraw_step, drawn_uis, hb, hi, ih]

theorem redraw_step_nil_dirty (l : List ui_adaptor) :
    redraw_step [] l = (l, [], []) := by
  induction l with
  | nil => rfl
  | cons h t ih =>
    cases hb : blocked_above t with
    | true => simp [redraw_step, hb, ih]
    | false => simp [redraw_step, hb, intersects_region, ih]

theorem drawn_uis_sublist (d : region) (l : List ui_adaptor) :
    List.Sublist (drawn_uis d l) l := by
  induction l with
  | nil => exact List.Sublist.refl []
  | cons h t ih =>
    cases hb : blocked_above t with
    | true => simpa [drawn_uis, hb] using ih.cons h
    | false =>
      cases hi : intersects_region h.dimensions d with
      | true => simpa [drawn_uis, hb, hi] using ih.cons₂ h
      | false => simpa [drawn_uis, hb, hi] using ih.cons h

theorem drawn_uis_intersects {d : region} {l : List ui_adaptor} {h : ui_adaptor}
    (hm : h ∈ drawn_uis d l) : intersects_region h.dimensions d = true := by
  induction l with
  | nil => simp [drawn_uis] at hm
  | cons a t ih =>
    cases hb : blocked_above t with
    | true =>
      rw [drawn_uis, hb] at hm
      exact ih (by simpa using hm)
    | false =>
      cases hi : intersects_region a.dimensions d with
      | true =>
        rw [drawn_uis, hb] at hm
        simp only [Bool.false_eq_true, if_false, hi, if_true, List.mem_cons] at hm
        rcases hm with rfl | hm
        · exact hi
        · exact ih hm
      | false =>
        rw [drawn_uis, hb] at hm
        simp only [Bool.false_eq_true, if_false, hi] at hm
        exact ih hm

theorem drawn_uis_complete (d : region) (l₁ l₂ : List ui_adaptor) (h : ui_adaptor)
    (hb : blocked_above l₂ = false) (hi : intersects_region h.dimensions d = true) :
    h ∈ drawn_uis d (l₁ ++ h :: l₂) := by
  induction l₁ with
  | nil => simp [drawn_uis, hb, hi]
  | cons a t ih =>
    cases hab : blocked_above (t ++ h :: l₂) with
    | true =>
      simp only [List.cons_append, drawn_uis, List.append_eq, hab, if_true]
      exact ih
    | false =>
      cases hai : intersects_region a.dimensions d with
      | true =>
        simp only [List.cons_append, drawn_uis, List.append_eq, hab, hai,
          Bool.false_eq_true, if_false, if_true]
        exact List.mem_cons_of_mem _ ih
      | false =>
        simp only [List.cons_append, drawn_uis, List.append_eq, hab, hai,
          Bool.false_eq_true, if_false]
        exact ih

theorem drawn_uis_append_blocked (d : region) (l₁ l₂ : List ui_adaptor)
    (hb : blocked_above l₂ = true) :
    drawn_uis d (l₁ ++ l₂) = drawn_uis d l₂ := by
  induction l₁ with
  | nil => rfl
  | cons a t ih =>
    have hba : blocked_above (t ++ l₂) = true := by
      unfold blocked_above at hb ⊢
      simp [List.any_append, hb]
    simp [drawn_uis, hba, ih]

/-! ### Lemmas about eligible pending identities -/

theorem epu_sublist (L : List (Nat × Bool × Bool)) :
    List.Sublist (epu L) (L.map (fun x => x.1)) := by
  induction L with
  | nil => exact List.Sublist.refl []
  | cons x t ih =>
    cases hb : t.any (fun y => y.2.1) with
    | true => simpa [epu, hb] using ih.cons x.1
    | false =>
      cases hx : x.2.2 with
      | true => simpa [epu, hb, hx] using ih.cons₂ x.1
      | false => simpa [epu, hb, hx] using ih.cons x.1

theorem epu_append_blocked (L₁ L₂ : List (Nat × Bool × Bool))
    (hb : L₂.any (fun y => y.2.1) = true) :
    epu (L₁ ++ L₂) = epu L₂ := by
  induction L₁ with
  | nil => rfl
  | cons x t ih =>
    have hba : (t ++ L₂).any (fun y => y.2.1) = true := by
      simp [List.any_append, hb]
    simp [epu, hba, ih]

theorem epu_mem (A B : List (Nat × Bool × Bool)) (u : Nat) (b : Bool)
    (hb : B.any (fun y => y.2.1) = false) :
    u ∈ epu (A ++ (u, b, true) :: B) := by
  induction A with
  | nil => simp [epu, hb]
  | cons x t ih =>
    cases hab : (t ++ (u, b, true) :: B).any (fun y => y.2.1) with
    | true =>
      simp only [List.cons_append, epu, List.append_eq, hab, if_true]
      exact ih
    | false =>
      cases hx : x.2.2 with
      | true =>
        simp only [List.cons_append, epu, List.append_eq, hab, hx,
          Bool.false_eq_true, if_false, if_true]
        exact List.mem_cons_of_mem _ ih
      | false =>
        simp only [List.cons_append, epu, List.append_eq, hab, hx,
          Bool.false_eq_true, if_false]
        exact ih

theorem count_eq_zero_of_sublist {L : List Nat} {M : List Nat} {u : Nat}
    (hs : List.Sublist L M) (hu : u ∉ M) : L.count u = 0 := by
  refine List.count_eq_zero.mpr (fun hm => hu ?_)
  exact hs.subset hm

theorem epu_count (A B : List (Nat × Bool × Bool)) (u : Nat) (b : Bool)
    (hb : B.any (fun y => y.2.1) = false)
    (hA : u ∉ A.map (fun x => x.1)) (hB : u ∉ B.map (fun x => x.1)) :
    (epu (A ++ (u, b, true) :: B)).count u = 1 := by
  induction A with
  | nil =>
    simp only [List.nil_append, epu, hb, Bool.false_eq_true, if_false, if_true]
    rw [List.count_cons_self, count_eq_zero_of_sublist (epu_sublist B) hB]
  | cons x t ih =>
    have hxu : x.1 ≠ u := by
      intro heq
      exact hA (by simp [← heq])
    have hA2 : u ∉ t.map (fun x => x.1) := by
      intro hm
      exact hA (List.mem_cons_of_mem _ hm)
    cases hab : (t ++ (u, b, true) :: B).any (fun y => y.2.1) with
    | true =>
      simp only [List.cons_append, epu, List.append_eq, hab, if_true]
      exact ih hA2
    | false =>
      cases hx : x.2.2 with
      | true =>
        simp only [List.cons_append, epu, List.append_eq, hab, hx,
          Bool.false_eq_true, if_false, if_true]
        rw [List.count_cons_of_ne (fun hne => hxu hne.symm), ih hA2]
      | false =>
        simp only [List.cons_append, epu, List.append_eq, hab, hx,
          Bool.false_eq_true, if_false]
        exact ih hA2

/-! ### Lemmas about marking the top handle invalid -/

theorem mark_top_invalid_map_udd (l : List ui_adaptor) :
    ((mark_top_invalid l).1).map udd = l.map udd := by
  induction l with
  | nil => rfl
  | cons h t ih =>
    cases t with
    | nil => simp [mark_top_invalid, udd]
    | cons y ys => simp only [mark_top_invalid, List.map_cons] at ih ⊢; rw [ih]

theorem mark_top_invalid_map_uid (l : List ui_adaptor) :
    ((mark_top_invalid l).1).map ui_adaptor.uid = l.map ui_adaptor.uid := by
  induction l with
  | nil => rfl
  | cons h t ih =>
    cases t with
    | nil => simp [mark_top_invalid]
    | cons y ys => simp only [mark_top_invalid, List.map_cons] at ih ⊢; rw [ih]

theorem mark_top_invalid_append (l₁ l₂ : List ui_adaptor) (hne : l₂ ≠ []) :
    mark_top_invalid (l₁ ++ l₂) =
      (l₁ ++ (mark_top_invalid l₂).1, (mark_top_invalid l₂).2) := by
  induction l₁ with
  | nil => rfl
  | cons a t ih =>
    cases hL : t ++ l₂ with
    | nil =>
      rcases List.append_eq_nil.mp hL with ⟨-, h2⟩
      exact absurd h2 hne
    | cons y ys =>
      simp only [List.cons_append, hL, mark_top_invalid]
      rw [← hL, ih]

/-! ### Event membership and identity lemmas -/

theorem map_udd_fst (l : List ui_adaptor) :
    (l.map udd).map (fun x => x.1) = l.map ui_adaptor.uid := by
  induction l with
  | nil => rfl
  | cons h t ih => simp only [List.map_cons, udd, ih]

theorem resize_events_are_resize {env : resize_env} {d : region}
    {l : List ui_adaptor} {e : ui_event} (hm : e ∈ (resize_step env d l).2.2) :
    ∃ u, e = ui_event.resize_call u := by
  rw [resize_step_events] at hm
  rcases List.mem_map.mp hm with ⟨a, -, ha⟩
  exact ⟨a, ha.symm⟩

theorem resize_events_mem {env : resize_env} {d : region} {l : List ui_adaptor}
    {u : Nat} (hm : ui_event.resize_call u ∈ (resize_step env d l).2.2) :
    u ∈ epu (l.map udd) := by
  rw [resize_step_events] at hm
  rcases List.mem_map.mp hm with ⟨a, hma, ha⟩
  injection ha with h2
  rw [← h2]
  exact hma

theorem resize_uid_mem {env : resize_env} {d : region} {l : List ui_adaptor}
    {u : Nat} (hm : ui_event.resize_call u ∈ (resize_step env d l).2.2) :
    u ∈ l.map ui_adaptor.uid := by
  have h1 := (epu_sublist (l.map udd)).subset (resize_events_mem hm)
  rwa [map_udd_fst] at h1

theorem resize_events_no_redraw (env : resize_env) (d : region)
    (l : List ui_adaptor) (u : Nat) :
    ui_event.redraw_call u ∉ (resize_step env d l).2.2 := by
  intro hm
  rcases resize_events_are_resize hm with ⟨a, ha⟩
  exact ui_event.noConfusion ha

theorem resize_events_no_flush (env : resize_env) (d : region)
    (l : List ui_adaptor) (reg : region) :
    ui_event.flush_call reg ∉ (resize_step env d l).2.2 := by
  intro hm
  rcases resize_events_are_resize hm with ⟨a, ha⟩
  exact ui_event.noConfusion ha

theorem redraw_events_are_redraw {d : region} {l : List ui_adaptor}
    {e : ui_event} (hm : e ∈ (redraw_step d l).2.2) :
    ∃ u, e = ui_event.redraw_call u := by
  rw [redraw_step_events] at hm
  rcases List.mem_map.mp hm with ⟨a, -, ha⟩
  exact ⟨a.uid, ha.symm⟩

theorem redraw_events_mem {d : region} {l : List ui_adaptor} {u : Nat}
    (hm : ui_event.redraw_call u ∈ (redraw_step d l).2.2) :
    ∃ h ∈ drawn_uis d l, h.uid = u := by
  rw [redraw_step_events] at hm
  rcases List.mem_map.mp hm with ⟨a, hma, ha⟩
  injection ha with h2
  exact ⟨a, hma, h2⟩

theorem redraw_uid_mem {d : region} {l : List ui_adaptor} {u : Nat}
    (hm : ui_event.redraw_call u ∈ (redraw_step d l).2.2) :
    u ∈ l.map ui_adaptor.uid := by
  rcases redraw_events_mem hm with ⟨hx, hxm, hxu⟩
  rw [← hxu]
  exact List.mem_map_of_mem _ ((drawn_uis_sublist d l).subset hxm)

theorem redraw_events_no_resize (d : region) (l : List ui_adaptor) (u : Nat) :
    ui_event.resize_call u ∉ (redraw_step d l).2.2 := by
  intro hm
  rcases redraw_events_are_redraw hm with ⟨a, ha⟩
  exact ui_event.noConfusion ha

theorem redraw_events_no_flush (d : region) (l : List ui_adaptor) (reg : region) :
    ui_event.flush_call reg ∉ (redraw_step d l).2.2 := by
  intro hm
  rcases redraw_events_are_redraw hm with ⟨a, ha⟩
  exact ui_event.noConfusion ha

/-! ### Identity bookkeeping -/

theorem nodup_uid_parts {pre post : List ui_adaptor} {hb : ui_adaptor}
    (hnd : ((pre ++ hb :: post).map ui_adaptor.uid).Nodup) :
    (∀ x ∈ pre, x.uid ≠ hb.uid) ∧ (∀ x ∈ post, x.uid ≠ hb.uid) ∧
      ∀ h ∈ pre, h.uid ∉ (hb :: post).map ui_adaptor.uid := by
  rw [List.map_append] at hnd
  have hdis : List.Disjoint (pre.map ui_adaptor.uid)
      ((hb :: post).map ui_adaptor.uid) := List.disjoint_of_nodup_append hnd
  have h3 : ∀ h ∈ pre, h.uid ∉ (hb :: post).map ui_adaptor.uid :=
    fun h hm hmem => hdis (List.mem_map_of_mem _ hm) hmem
  have hr : ((hb :: post).map ui_adaptor.uid).Nodup := hnd.of_append_right
  rw [List.map_cons, List.nodup_cons] at hr
  refine ⟨fun x hx heq => h3 x hx ?_, fun x hx heq => hr.1 ?_, h3⟩
  · rw [heq]
    exact List.mem_cons_self _ _
  · rw [← heq]
    exact List.mem_map_of_mem _ hx

theorem find_ui_append {pre post : List ui_adaptor} {hb : ui_adaptor}
    (hpre : ∀ x ∈ pre, x.uid ≠ hb.uid) :
    find_ui hb.uid (pre ++ hb :: post) = some hb := by
  induction pre with
  | nil =>
    simp [find_ui, List.find?_cons_of_pos]
  | cons a t ih =>
    have ha : ¬ (a.uid = hb.uid) = True := by
      simp [hpre a (List.mem_cons_self a t)]
    rw [List.cons_append, find_ui, List.find?_cons_of_neg]
    · exact ih (fun x hx => hpre x (List.mem_cons_of_mem _ hx))
    · simp [hpre a (List.mem_cons_self a t)]

theorem filter_uid_ne {l : List ui_adaptor} {u : Nat}
    (hl : ∀ x ∈ l, x.uid ≠ u) :
    l.filter (fun x => decide (x.uid ≠ u)) = l :=
  List.filter_eq_self.mpr (fun a ha => by simpa using hl a ha)

theorem redraw_step_clears {d : region} {l : List ui_adaptor}
    (hnd : (l.map ui_adaptor.uid).Nodup) :
    ∀ h' ∈ (redraw_step d l).1,
      ui_event.redraw_call h'.uid ∈ (redraw_step d l).2.2 →
        h'.invalidated = false := by
  induction l with
  | nil => intro h' hm; simp [redraw_step] at hm
  | cons h t ih =>
    rw [List.map_cons, List.nodup_cons] at hnd
    obtain ⟨hh, hnd2⟩ := hnd
    intro h' hm hev
    cases hb : blocked_above t with
    | true =>
      simp only [redraw_step, hb, if_true, List.mem_cons] at hm hev
      rcases hm with rfl | hm
      · exact absurd (redraw_uid_mem hev) hh
      · exact ih hnd2 h' hm hev
    | false =>
      cases hi : intersects_region h.dimensions d with
      | true =>
        simp only [redraw_step, hb, hi, Bool.false_eq_true, if_false, if_true,
          List.mem_cons] at hm hev
        rcases hm with rfl | hm
        · rfl
        · rcases hev with heq | hev
          · injection heq with h2
            have : h'.uid ∈ t.map ui_adaptor.uid := by
              rw [← redraw_step_map_uid d t]
              exact List.mem_map_of_mem _ hm
            rw [h2] at this
            exact absurd this hh
          · exact ih hnd2 h' hm hev
      | false =>
        simp only [redraw_step, hb, hi, Bool.false_eq_true, if_false,
          List.mem_cons] at hm hev
        rcases hm with rfl | hm
        · exact absurd (redraw_uid_mem hev) hh
        · exact ih hnd2 h' hm hev

/-! ### Stack-order invariant (claim C2) -/

/-- The stack invariant: handle identities appear in strictly increasing
(construction) order, and are all below the next fresh identity. -/
def stack_inv (s : ui_manager_state) : Prop :=
  ((s.ui_stack.map ui_adaptor.uid).Pairwise (· < ·)) ∧
    ∀ h ∈ s.ui_stack, h.uid < s.next_uid

theorem run_op_inv (s : ui_manager_state) (op : ui_op) (hinv : stack_inv s) :
    stack_inv (run_op s op) := by
  obtain ⟨h1, h2⟩ := hinv
  cases op with
  | push b =>
    constructor
    · simp only [run_op, push_ui, List.map_append, List.pairwise_append]
      refine ⟨h1, List.pairwise_singleton _ _, ?_⟩
      intro a ha b hbm
      rcases List.mem_map.mp ha with ⟨x, hx, rfl⟩
      simp only [List.map_cons, List.map_nil, List.mem_singleton] at hbm
      rw [hbm]
      exact h2 x hx
    · intro h hm
      simp only [run_op, push_ui, List.mem_append, List.mem_singleton] at hm
      rcases hm with hm | rfl
      · exact Nat.lt_succ_of_lt (h2 h hm)
      · exact Nat.lt_succ_self _
  | remove u =>
    cases hf : find_ui u s.ui_stack with
    | none =>
      simpa [run_op, remove_ui, hf] using And.intro h1 h2
    | some hh =>
      constructor
      · simp only [run_op, remove_ui, hf]
        exact h1.sublist (List.Sublist.map _ (List.filter_sublist _))
      · intro h hm
        simp only [run_op, remove_ui, hf] at hm ⊢
        exact h2 h (List.mem_of_mem_filter hm)

theorem foldl_run_op_inv (ops : List ui_op) (s : ui_manager_state)
    (hinv : stack_inv s) : stack_inv (ops.foldl run_op s) := by
  induction ops generalizing s with
  | nil => exact hinv
  | cons op t ih => exact ih _ (run_op_inv s op hinv)

/-- C2: for every sequence of handle constructions (push) and destructions
(remove), the currently-live handles appear in the stack in construction
order (their identities, assigned in construction order, are strictly
increasing along the stack), and removing a handle — at the top or not —
just erases it from the sequence, leaving the relative order of all
remaining handles unchanged. -/
theorem c2_stack_order_matches_construction (surf : rectangle) (ops : List ui_op) :
    ((run_ops surf ops).ui_stack.map ui_adaptor.uid).Pairwise (· < ·) ∧
      ∀ u, (run_ops surf (ops ++ [ui_op.remove u])).ui_stack =
        (run_ops surf ops).ui_stack.filter (fun h => decide (h.uid ≠ u)) := by
  constructor
  · exact (foldl_run_op_inv ops (init_state surf)
      ⟨List.Pairwise.nil, by intro h hm; simp [init_state] at hm⟩).1
  · intro u
    rw [run_ops, List.foldl_append]
    cases hf : find_ui u (run_ops surf ops).ui_stack with
    | none =>
      have hne : ∀ x ∈ (run_ops surf ops).ui_stack, x.uid ≠ u := by
        intro x hx heq
        have := List.find?_eq_none.mp hf x hx
        simp [heq] at this
      simp only [List.foldl_cons, List.foldl_nil, run_op, remove_ui]
      rw [run_ops] at hf
      rw [hf]
      exact (filter_uid_ne hne).symm
    | some hh =>
      simp only [List.foldl_cons, List.foldl_nil, run_op, remove_ui]
      rw [run_ops] at hf
      rw [hf]
      exact rfl

/-! ### Claim theorems -/

/-- C9: calling `position_from_window` with a null window leaves the
manager state (and hence the handle) exactly as `position(point_zero,
point_zero)` does: the two operations are equal on that input. -/
theorem c9_position_from_null_window (s : ui_manager_state) (u : Nat) :
    position_from_window s u none = position s u point_zero point_zero := rfl

/-- The handle fields that `mark_resize` and `invalidate_ui` must leave
unchanged: identity, rectangle, both callbacks, and the blocks-below
flag. -/
def core_fields (h : ui_adaptor) : Nat × rectangle × Nat × Nat × Bool :=
  (h.uid, h.dimensions, h.redraw_cb, h.screen_resized_cb, h.disabling_uis_below)

theorem update_ui_map_core (u : Nat) (f : ui_adaptor → ui_adaptor)
    (l : List ui_adaptor) (hf : ∀ h, core_fields (f h) = core_fields h) :
    (update_ui u f l).map core_fields = l.map core_fields := by
  induction l with
  | nil => rfl
  | cons a t ih =>
    simp only [update_ui, List.map_cons] at ih ⊢
    rw [ih]
    by_cases ha : a.uid = u
    · rw [if_pos ha, hf a]
    · rw [if_neg ha]

/-- C10: `mark_resize` and `invalidate_ui` modify only the handle's
`invalidated`/`deferred_resize` flags (and, for `invalidate_ui`, the
shared dirty region): every handle's identity, rectangle, redraw
callback, resize callback and blocks-below flag — and the stack order,
the surface and the identity counter — are unchanged by either
operation (`mark_resize` also leaves the dirty region unchanged). -/
theorem c10_mark_resize_invalidate_frame (s : ui_manager_state) (u : Nat) :
    ((mark_resize s u).ui_stack.map core_fields = s.ui_stack.map core_fields ∧
      (mark_resize s u).dirty_region = s.dirty_region ∧
      (mark_resize s u).surface = s.surface ∧
      (mark_resize s u).next_uid = s.next_uid) ∧
    ((invalidate_ui s u).ui_stack.map core_fields = s.ui_stack.map core_fields ∧
      (invalidate_ui s u).surface = s.surface ∧
      (invalidate_ui s u).next_uid = s.next_uid) := by
  refine ⟨⟨?_, rfl, rfl, rfl⟩, ⟨?_, rfl, rfl⟩⟩
  · exact update_ui_map_core u _ s.ui_stack (fun h => rfl)
  · exact update_ui_map_core u _ s.ui_stack (fun h => rfl)

/-- C6: a second `redraw_invalidated()` immediately after a first one
(no intervening invalidation) invokes no resize and no redraw callback:
its only observable action is the (empty) end-of-pass flush. -/
theorem c6_redraw_invalidated_idempotent (env : resize_env) (s : ui_manager_state) :
    (ui_manager.redraw_invalidated env
        (ui_manager.redraw_invalidated env s).1).2 =
      [ui_event.flush_call []] := by
  set s1 := (ui_manager.redraw_invalidated env s).1 with hs1
  have h1 : s1.dirty_region = [] := rfl
  have hepu : epu ((s1.ui_stack).map udd) = [] := by
    show epu (((redraw_step (resize_step env s.dirty_region s.ui_stack).2.1
      (resize_step env s.dirty_region s.ui_stack).1).1).map udd) = []
    rw [redraw_step_map_udd]
    exact resize_step_epu_out env _ _
  have hev2 : (resize_step env s1.dirty_region s1.ui_stack).2.2 = [] := by
    rw [resize_step_events, hepu]
    rfl
  have hnoop := resize_step_noop env s1.dirty_region s1.ui_stack hev2
  simp only [ui_manager.redraw_invalidated, resize_pass, redraw_pass]
  rw [hnoop]
  simp only [h1, redraw_step_nil_dirty]
  rfl

/-- C8: a handle whose rectangle is empty (zero-size) is simply skipped
by a redraw pass — no error state exists, and its redraw callback is
never invoked, since an empty rectangle intersects no dirty region. -/
theorem c8_empty_rectangle_skipped (s : ui_manager_state)
    (pre post : List ui_adaptor) (h : ui_adaptor)
    (hstack : s.ui_stack = pre ++ h :: post)
    (hnd : (s.ui_stack.map ui_adaptor.uid).Nodup)
    (hemp : h.dimensions.is_empty = true) :
    ui_event.redraw_call h.uid ∉ (redraw_pass s).2 := by
  intro hm
  simp only [redraw_pass, List.mem_append, List.mem_singleton] at hm
  rcases hm with hm | hm
  · rcases redraw_events_mem hm with ⟨h2, h2m, h2u⟩
    have h2mem : h2 ∈ s.ui_stack := (drawn_uis_sublist _ _).subset h2m
    have hmem : h ∈ s.ui_stack := by
      rw [hstack]
      exact List.mem_append_right _ (List.mem_cons_self _ _)
    have heq : h2 = h := List.inj_on_of_nodup_map hnd h2mem hmem h2u
    have hint := drawn_uis_intersects h2m
    rw [heq, intersects_region_of_is_empty hemp] at hint
    simp at hint
  · exact ui_event.noConfusion hm

/-- The surface and rectangles of the two-panel flush scenario. -/
def c4_surface : rectangle := ⟨⟨0, 0⟩, ⟨80, 24⟩⟩

/-- Rectangle of the lower scenario panel. -/
def c4_rect_a : rectangle := ⟨⟨0, 0⟩, ⟨10, 5⟩⟩

/-- Rectangle of the upper scenario panel; disjoint from `c4_rect_a`. -/
def c4_rect_b : rectangle := ⟨⟨20, 10⟩, ⟨25, 15⟩⟩

/-- Two non-overlapping handles, both positioned and marked invalidated. -/
def c4_state : ui_manager_state :=
  invalidate_ui
    (invalidate_ui
      (position
        (position (push_ui (push_ui (init_state c4_surface) false) false)
          0 ⟨0, 0⟩ ⟨10, 5⟩)
        1 ⟨20, 10⟩ ⟨5, 5⟩)
      0)
    1

/-- C4: every redraw pass ends with exactly one flush event, whose region
is the union of the rectangles of precisely the handles redrawn in the
pass, and the pass clears the dirty region; concretely, for two
non-overlapping handles both marked invalidated, the flushed region is
the union of their two rectangles (it covers points of both panels) and
not the full surface (a surface point outside both panels is not in
it). -/
theorem c4_flush_is_union_of_touched (s : ui_manager_state) :
    ((redraw_pass s).2 =
        (redraw_step s.dirty_region s.ui_stack).2.2 ++
          [ui_event.flush_call
            ((drawn_uis s.dirty_region s.ui_stack).map (fun h => h.dimensions))] ∧
      (∀ reg : region,
        ui_event.flush_call reg ∉ (redraw_step s.dirty_region s.ui_stack).2.2) ∧
      (∀ p : point,
        region_contains
            ((drawn_uis s.dirty_region s.ui_stack).map (fun h => h.dimensions)) p =
          true ↔
          ∃ h2 ∈ drawn_uis s.dirty_region s.ui_stack,
            h2.dimensions.contains_point p = true) ∧
      (redraw_pass s).1.dirty_region = []) ∧
    ((redraw_pass c4_state).2 =
        [ui_event.redraw_call 0, ui_event.redraw_call 1,
          ui_event.flush_call [c4_rect_a, c4_rect_b]] ∧
      region_contains [c4_rect_a, c4_rect_b] ⟨5, 2⟩ = true ∧
      region_contains [c4_rect_a, c4_rect_b] ⟨22, 12⟩ = true ∧
      c4_surface.contains_point ⟨50, 20⟩ = true ∧
      region_contains [c4_rect_a, c4_rect_b] ⟨50, 20⟩ = false) := by
  refine ⟨⟨?_, ?_, ?_, rfl⟩, by decide⟩
  · simp only [redraw_pass, redraw_step_touched]
  · exact fun reg => redraw_events_no_flush _ _ reg
  · intro p
    simp [region_contains, List.any_map, List.any_eq_true, Function.comp]

/-- The handle identities for which a redraw callback invocation appears
in an event list, in order. -/
def redraw_uids (evs : List ui_event) : List Nat :=
  evs.filterMap (fun e =>
    match e with
    | ui_event.redraw_call u => some u
    | _ => none)

theorem redraw_uids_map_redraw (l : List ui_adaptor) :
    redraw_uids (l.map (fun h => ui_event.redraw_call h.uid)) =
      l.map ui_adaptor.uid := by
  induction l with
  | nil => rfl
  | cons a t ih =>
    simp only [List.map_cons, redraw_uids, List.filterMap_cons] at ih ⊢
    rw [ih]

theorem redraw_uids_append (e1 e2 : List ui_event) :
    redraw_uids (e1 ++ e2) = redraw_uids e1 ++ redraw_uids e2 := by
  simp [redraw_uids, List.filterMap_append]

theorem redraw_uids_flush (reg : region) :
    redraw_uids [ui_event.flush_call reg] = [] := rfl

/-- C7: in every redraw pass, (a) the redrawn handles are invoked in
bottom-to-top stack order (the emitted identities form a sublist of the
stack's identities), (b) every redrawn handle's `invalidated` flag is
cleared by the pass, and (c) every eligible handle whose rectangle
intersects the dirty region is redrawn — no handle that needs redrawing
is skipped, regardless of what lies above it. -/
theorem c7_redraw_order_clear_complete (s : ui_manager_state) :
    List.Sublist (redraw_uids (redraw_pass s).2) (s.ui_stack.map ui_adaptor.uid) ∧
    ((s.ui_stack.map ui_adaptor.uid).Nodup →
      ∀ h2 ∈ (redraw_pass s).1.ui_stack,
        ui_event.redraw_call h2.uid ∈ (redraw_pass s).2 →
          h2.invalidated = false) ∧
    (∀ pre h post, s.ui_stack = pre ++ h :: post →
      blocked_above post = false →
      intersects_region h.dimensions s.dirty_region = true →
      ui_event.redraw_call h.uid ∈ (redraw_pass s).2) := by
  refine ⟨?_, ?_, ?_⟩
  · have h1 : redraw_uids (redraw_pass s).2 =
        (drawn_uis s.dirty_region s.ui_stack).map ui_adaptor.uid := by
      simp only [redraw_pass, redraw_uids_append, redraw_step_events,
        redraw_uids_map_redraw, redraw_uids_flush, List.append_nil]
    rw [h1]
    exact List.Sublist.map _ (drawn_uis_sublist _ _)
  · intro hnd h2 hm hev
    simp only [redraw_pass, List.mem_append, List.mem_singleton] at hev
    rcases hev with hev | hev
    · exact redraw_step_clears hnd h2 hm hev
    · exact ui_event.noConfusion hev
  · intro pre h post hstack hb hi
    simp only [redraw_pass, List.mem_append, List.mem_singleton]
    left
    rw [redraw_step_events, hstack]
    exact List.mem_map_of_mem _ (drawn_uis_complete _ pre post h hb hi)

/-! ### Screen-resize pass (claim C3) -/

theorem redraw_invalidated_split (env : resize_env) (s : ui_manager_state) :
    ∃ A B, (ui_manager.redraw_invalidated env s).2 = A ++ B ∧
      (∀ e ∈ A, ∃ u, e = ui_event.resize_call u) ∧
      (∀ e ∈ B, ∀ u, e ≠ ui_event.resize_call u) := by
  refine ⟨(resize_pass env s).2, (redraw_pass (resize_pass env s).1).2, rfl, ?_, ?_⟩
  · intro e he
    exact resize_events_are_resize he
  · intro e he u heq
    subst heq
    simp only [redraw_pass, List.mem_append, List.mem_singleton] at he
    rcases he with he | he
    · exact redraw_events_no_resize _ _ _ he
    · exact ui_event.noConfusion he

theorem map_ud_fst (l : List ui_adaptor) :
    (l.map ud).map (fun x => x.1) = l.map ui_adaptor.uid := by
  induction l with
  | nil => rfl
  | cons h t ih => simp only [List.map_cons, ud, ih]

theorem resize_step_map_uid (env : resize_env) (d : region) (l : List ui_adaptor) :
    ((resize_step env d l).1).map ui_adaptor.uid = l.map ui_adaptor.uid := by
  rw [← map_ud_fst, resize_step_map_ud, map_ud_fst]

theorem map_mark_all_udd (l : List ui_adaptor) :
    (l.map (fun h => { h with deferred_resize := true })).map udd =
      l.map (fun h => (h.uid, h.disabling_uis_below, true)) := by
  induction l with
  | nil => rfl
  | cons h t ih => simp only [List.map_cons, udd, ih]

theorem map_mark_all_uid (l : List ui_adaptor) :
    (l.map (fun h => { h with deferred_resize := true })).map ui_adaptor.uid =
      l.map ui_adaptor.uid := by
  induction l with
  | nil => rfl
  | cons h t ih => simp only [List.map_cons, ih]

theorem blocked_above_mark_all (l : List ui_adaptor) :
    blocked_above (l.map (fun h => { h with deferred_resize := true })) =
      blocked_above l := by
  induction l with
  | nil => rfl
  | cons h t ih => simp only [List.map_cons, blocked_above, List.any_cons] at ih ⊢; rw [ih]

theorem map_sig_fst (l : List ui_adaptor) :
    (l.map (fun h => (h.uid, h.disabling_uis_below, true))).map (fun x => x.1) =
      l.map ui_adaptor.uid := by
  induction l with
  | nil => rfl
  | cons h t ih => simp only [List.map_cons, ih]

theorem any_sig_blocked (l : List ui_adaptor) :
    (l.map (fun h => (h.uid, h.disabling_uis_below, true))).any (fun y => y.2.1) =
      blocked_above l := by
  induction l with
  | nil => rfl
  | cons h t ih => simp only [List.map_cons, blocked_above, List.any_cons] at ih ⊢; rw [ih]

/-- C3: `screen_resized()` first marks every live handle for deferred
resize and invalidates the full surface extent, then behaves exactly like
`redraw()`; in the resulting pass every resize-callback invocation
precedes every other event (in particular every redraw invocation), and
every eligible live handle's resize callback runs exactly once. -/
theorem c3_screen_resized_resizes_once_first (env : resize_env) (s : ui_manager_state) :
    (ui_manager.screen_resized env s =
      ui_manager.redraw env
        { s with
          ui_stack := s.ui_stack.map (fun h => { h with deferred_resize := true }),
          dirty_region := s.surface :: s.dirty_region }) ∧
    (∃ A B, (ui_manager.screen_resized env s).2 = A ++ B ∧
      (∀ e ∈ A, ∃ u, e = ui_event.resize_call u) ∧
      (∀ e ∈ B, ∀ u, e ≠ ui_event.resize_call u)) ∧
    (∀ pre h post, s.ui_stack = pre ++ h :: post →
      blocked_above post = false →
      (s.ui_stack.map ui_adaptor.uid).Nodup →
      ((ui_manager.screen_resized env s).2).count
        (ui_event.resize_call h.uid) = 1) := by
  refine ⟨rfl, redraw_invalidated_split env _, ?_⟩
  intro pre h post hstack hb hnd
  have hinj : Function.Injective ui_event.resize_call := by
    intro a b hab
    injection hab
  have hparts := nodup_uid_parts (by rw [← hstack]; exact hnd)
  simp only [ui_manager.screen_resized, ui_manager.redraw,
    ui_manager.redraw_invalidated, resize_pass, redraw_pass,
    List.count_append]
  have hz1 : ∀ d2 l2, (List.count (ui_event.resize_call h.uid)
      ((redraw_step d2 l2).2.2)) = 0 :=
    fun d2 l2 => List.count_eq_zero.mpr (redraw_events_no_resize d2 l2 h.uid)
  have hz2 : ∀ reg, (List.count (ui_event.resize_call h.uid)
      [ui_event.flush_call reg]) = 0 := by
    intro reg
    refine List.count_eq_zero.mpr ?_
    intro hm
    rw [List.mem_singleton] at hm
    exact ui_event.noConfusion hm
  rw [hz1, hz2, resize_step_events, List.count_map_of_injective _ _ hinj]
  have hstack2 : ((mark_top_invalid
      (s.ui_stack.map (fun h => { h with deferred_resize := true }))).1).map udd =
      (pre.map (fun x => (x.uid, x.disabling_uis_below, true))) ++
        (h.uid, h.disabling_uis_below, true) ::
          (post.map (fun x => (x.uid, x.disabling_uis_below, true))) := by
    rw [mark_top_invalid_map_udd, map_mark_all_udd, hstack, List.map_append,
      List.map_cons]
  rw [hstack2]
  refine epu_count _ _ _ _ ?_ ?_ ?_
  · rw [any_sig_blocked]
    exact hb
  · rw [map_sig_fst]
    intro hm
    rcases List.mem_map.mp hm with ⟨x, hx, hxu⟩
    exact hparts.1 x hx hxu
  · rw [map_sig_fst]
    intro hm
    rcases List.mem_map.mp hm with ⟨x, hx, hxu⟩
    exact hparts.2.1 x hx hxu

/-- C5: `redraw_invalidated()` never invokes the redraw callback of a
handle that, when the redraw sweep starts (after the resize pass), has a
rectangle that does not intersect the accumulated dirty region and whose
`invalidated` flag is false. -/
theorem c5_redraw_invalidated_skips_clean (env : resize_env)
    (s : ui_manager_state) (pre post : List ui_adaptor) (h : ui_adaptor)
    (hstack : ((resize_pass env s).1).ui_stack = pre ++ h :: post)
    (hnd : ((((resize_pass env s).1).ui_stack).map ui_adaptor.uid).Nodup)
    (hint : intersects_region h.dimensions
      ((resize_pass env s).1).dirty_region = false)
    (_hinv : h.invalidated = false) :
    ui_event.redraw_call h.uid ∉ (ui_manager.redraw_invalidated env s).2 := by
  intro hm
  simp only [ui_manager.redraw_invalidated, redraw_pass, List.mem_append,
    List.mem_singleton] at hm
  rcases hm with hm | hm | hm
  · exact resize_events_no_redraw _ _ _ _ hm
  · rcases redraw_events_mem hm with ⟨h2, h2m, h2u⟩
    have h2mem : h2 ∈ ((resize_pass env s).1).ui_stack :=
      (drawn_uis_sublist _ _).subset h2m
    have hmem : h ∈ ((resize_pass env s).1).ui_stack := by
      rw [hstack]
      exact List.mem_append_right _ (List.mem_cons_self _ _)
    have heq : h2 = h := List.inj_on_of_nodup_map hnd h2mem hmem h2u
    have hi2 := drawn_uis_intersects h2m
    rw [heq] at hi2
    rw [hi2] at hint
    exact Bool.noConfusion hint
  · exact ui_event.noConfusion hm

/-! ### Blocking handles (claim C1) -/

theorem redraw_invalidated_events_blocked (env : resize_env)
    (s : ui_manager_state) (X Y : List ui_adaptor)
    (hs : s.ui_stack = X ++ Y) (hb : blocked_above Y = true) (u : Nat)
    (hu : u ∉ Y.map ui_adaptor.uid) :
    ui_event.resize_call u ∉ (ui_manager.redraw_invalidated env s).2 ∧
    ui_event.redraw_call u ∉ (ui_manager.redraw_invalidated env s).2 := by
  have hra := resize_step_append_blocked env s.dirty_region X Y hb
  have he1 : (resize_step env s.dirty_region (X ++ Y)).2.2 =
      (resize_step env s.dirty_region Y).2.2 := by rw [hra]
  have hstack' : (resize_step env s.dirty_region (X ++ Y)).1 =
      X ++ (resize_step env s.dirty_region Y).1 := by rw [hra]
  have hb' : blocked_above (resize_step env s.dirty_region Y).1 = true := by
    rw [resize_step_blocked]
    exact hb
  constructor
  · intro hm
    simp only [ui_manager.redraw_invalidated, resize_pass, redraw_pass,
      List.mem_append, List.mem_singleton, hs] at hm
    rcases hm with hm | hm | hm
    · rw [he1] at hm
      exact hu (resize_uid_mem hm)
    · exact redraw_events_no_resize _ _ _ hm
    · exact ui_event.noConfusion hm
  · intro hm
    simp only [ui_manager.redraw_invalidated, resize_pass, redraw_pass,
      List.mem_append, List.mem_singleton, hs] at hm
    rcases hm with hm | hm | hm
    · exact resize_events_no_redraw _ _ _ _ hm
    · rw [hstack', redraw_step_events,
        drawn_uis_append_blocked _ _ _ hb'] at hm
      rcases List.mem_map.mp hm with ⟨h2, h2m, h2e⟩
      injection h2e with h2u
      apply hu
      rw [← h2u]
      have hmem : h2 ∈ (resize_step env s.dirty_region Y).1 :=
        (drawn_uis_sublist _ _).subset h2m
      have hmap := List.mem_map_of_mem ui_adaptor.uid hmem
      rwa [resize_step_map_uid] at hmap
    · exact ui_event.noConfusion hm

theorem redraw_events_blocked (env : resize_env) (s : ui_manager_state)
    (X Y : List ui_adaptor) (hs : s.ui_stack = X ++ Y)
    (hb : blocked_above Y = true) (u : Nat)
    (hu : u ∉ Y.map ui_adaptor.uid) :
    ui_event.resize_call u ∉ (ui_manager.redraw env s).2 ∧
    ui_event.redraw_call u ∉ (ui_manager.redraw env s).2 := by
  have hYne : Y ≠ [] := by
    intro hY
    rw [hY] at hb
    exact Bool.noConfusion hb
  have hmt := mark_top_invalid_append X Y hYne
  refine redraw_invalidated_events_blocked env _ X (mark_top_invalid Y).1 ?_ ?_ u ?_
  · show (mark_top_invalid s.ui_stack).1 = X ++ (mark_top_invalid Y).1
    rw [hs, hmt]
  · rw [← blocked_above_map_udd, mark_top_invalid_map_udd, blocked_above_map_udd]
    exact hb
  · rw [mark_top_invalid_map_uid]
    exact hu

theorem screen_resized_events_blocked (env : resize_env) (s : ui_manager_state)
    (X Y : List ui_adaptor) (hs : s.ui_stack = X ++ Y)
    (hb : blocked_above Y = true) (u : Nat)
    (hu : u ∉ Y.map ui_adaptor.uid) :
    ui_event.resize_call u ∉ (ui_manager.screen_resized env s).2 ∧
    ui_event.redraw_call u ∉ (ui_manager.screen_resized env s).2 := by
  refine redraw_events_blocked env _
    (X.map (fun h => { h with deferred_resize := true }))
    (Y.map (fun h => { h with deferred_resize := true })) ?_ ?_ u ?_
  · show s.ui_stack.map (fun h => { h with deferred_resize := true }) = _
    rw [hs, List.map_append]
  · rw [blocked_above_mark_all]
    exact hb
  · rw [map_mark_all_uid]
    exact hu

/-- C1 (amended): while a blocking handle is live, no handle below it in
the stack has its resize or redraw callback invoked by any of the three
passes; removing the blocking handle adds the full surface extent to the
dirty region; and a handle that was below it becomes eligible again on
the next pass provided no other blocking handle remains above it —
witnessed by its pending resize callback actually being invoked. -/
theorem c1_blocking_suppresses_below (env : resize_env) (s : ui_manager_state)
    (pre post : List ui_adaptor) (hb : ui_adaptor)
    (hstack : s.ui_stack = pre ++ hb :: post)
    (hblock : hb.disabling_uis_below = true)
    (hnd : (s.ui_stack.map ui_adaptor.uid).Nodup) :
    (∀ h ∈ pre,
      (ui_event.resize_call h.uid ∉ (ui_manager.redraw env s).2 ∧
        ui_event.redraw_call h.uid ∉ (ui_manager.redraw env s).2) ∧
      (ui_event.resize_call h.uid ∉ (ui_manager.redraw_invalidated env s).2 ∧
        ui_event.redraw_call h.uid ∉ (ui_manager.redraw_invalidated env s).2) ∧
      (ui_event.resize_call h.uid ∉ (ui_manager.screen_resized env s).2 ∧
        ui_event.redraw_call h.uid ∉ (ui_manager.screen_resized env s).2)) ∧
    s.surface ∈ (remove_ui s hb.uid).dirty_region ∧
    (∀ pre1 h pre2, pre = pre1 ++ h :: pre2 →
      blocked_above (pre2 ++ post) = false →
      h.deferred_resize = true →
      ui_event.resize_call h.uid ∈
        (ui_manager.redraw_invalidated env (remove_ui s hb.uid)).2) := by
  have hparts := nodup_uid_parts (by rw [← hstack]; exact hnd)
  have hbY : blocked_above (hb :: post) = true := by
    simp [blocked_above, hblock]
  have hfind : find_ui hb.uid s.ui_stack = some hb := by
    rw [hstack]
    exact find_ui_append hparts.1
  refine ⟨?_, ?_, ?_⟩
  · intro h hm
    have hu : h.uid ∉ (hb :: post).map ui_adaptor.uid := hparts.2.2 h hm
    exact ⟨redraw_events_blocked env s pre (hb :: post) hstack hbY h.uid hu,
      redraw_invalidated_events_blocked env s pre (hb :: post) hstack hbY h.uid hu,
      screen_resized_events_blocked env s pre (hb :: post) hstack hbY h.uid hu⟩
  · simp only [remove_ui, hfind, hblock, if_true]
    simp [List.mem_append]
  · intro pre1 h pre2 hpre hba hd
    have hstack' : (remove_ui s hb.uid).ui_stack = pre ++ post := by
      simp only [remove_ui, hfind]
      rw [hstack, List.filter_append, filter_uid_ne hparts.1, List.filter_cons]
      have hhb : (decide (hb.uid ≠ hb.uid)) = false := by simp
      rw [hhb]
      simp only [Bool.false_eq_true, if_false]
      rw [filter_uid_ne hparts.2.1]
    simp only [ui_manager.redraw_invalidated, resize_pass, List.mem_append]
    left
    rw [hstack', hpre, List.append_assoc, List.cons_append]
    exact resize_step_complete env _ pre1 (pre2 ++ post) h hba hd

/-- The resize environment used by the concrete blocking-handle
scenarios. -/
def c1_env : resize_env := fun _ => ⟨⟨0, 0⟩, ⟨10, 5⟩⟩

/-- A stack with a normal handle 0 below two stacked blocking handles 1
and 2, where handle 0 needs both resize and redraw. -/
def c1_pre_state : ui_manager_state :=
  invalidate_ui
    (mark_resize
      (push_ui (push_ui (push_ui (init_state ⟨⟨0, 0⟩, ⟨80, 24⟩⟩) false) true) true)
      0)
    0

/-- The same stack after removing the upper blocking handle 2. -/
def c1_cx_state : ui_manager_state := remove_ui c1_pre_state 2

/-- C1 as stated is false: handle 2 was constructed with the blocking
variant and handle 0 lies below it, yet after handle 2 is removed,
handle 0 does not become eligible on the next pass — neither
`screen_resized` nor `redraw_invalidated` invokes its callbacks, because
the other blocking handle 1 still stands above it. -/
theorem c1_counterexample_stacked_blocking :
    (c1_pre_state.ui_stack.map ui_adaptor.uid = [0, 1, 2] ∧
      (find_ui 2 c1_pre_state.ui_stack).map
        (fun h => h.disabling_uis_below) = some true ∧
      (find_ui 0 c1_cx_state.ui_stack).map
        (fun h => h.deferred_resize) = some true) ∧
    (ui_event.resize_call 0 ∉ (ui_manager.screen_resized c1_env c1_cx_state).2 ∧
      ui_event.redraw_call 0 ∉ (ui_manager.screen_resized c1_env c1_cx_state).2 ∧
      ui_event.resize_call 0 ∉
        (ui_manager.redraw_invalidated c1_env c1_cx_state).2 ∧
      ui_event.redraw_call 0 ∉
        (ui_manager.redraw_invalidated c1_env c1_cx_state).2) := by
  decide

/-! ### Concrete witnesses -/

/-- A stack with a normal handle 0 below a single blocking handle 1. -/
def c1w_state : ui_manager_state :=
  push_ui (push_ui (init_state ⟨⟨0, 0⟩, ⟨80, 24⟩⟩) false) true

/-- The lower, suppressed handle of `c1w_state`. -/
def c1w_handle0 : ui_adaptor := ⟨0, empty_rect, 0, 0, false, false, false⟩

/-- The blocking handle of `c1w_state`. -/
def c1w_handleb : ui_adaptor := ⟨1, empty_rect, 0, 0, true, false, false⟩

/-- Witness for C1 at a concrete two-handle stack: the hypotheses hold and
the theorem yields both the full-surface invalidation on removal and the
suppression of the lower handle's resize callback. -/
theorem c1_blocking_suppresses_below_witness :
    (c1w_state.ui_stack = [c1w_handle0] ++ c1w_handleb :: [] ∧
      c1w_handleb.disabling_uis_below = true ∧
      (c1w_state.ui_stack.map ui_adaptor.uid).Nodup) ∧
    (c1w_state.surface ∈ (remove_ui c1w_state c1w_handleb.uid).dirty_region ∧
      ui_event.resize_call c1w_handle0.uid ∉ (ui_manager.redraw c1_env c1w_state).2) :=
  ⟨⟨by decide, by decide, by decide⟩,
    ⟨(c1_blocking_suppresses_below c1_env c1w_state [c1w_handle0] []
        c1w_handleb (by decide) (by decide) (by decide)).2.1,
      ((c1_blocking_suppresses_below c1_env c1w_state [c1w_handle0] []
        c1w_handleb (by decide) (by decide) (by decide)).1 c1w_handle0
        (by decide)).1.1⟩⟩

/-- A stack of two ordinary handles for the screen-resize witness. -/
def c3_state : ui_manager_state :=
  push_ui (push_ui (init_state ⟨⟨0, 0⟩, ⟨80, 24⟩⟩) false) false

/-- The lower handle of `c3_state`. -/
def c3_handle0 : ui_adaptor := ⟨0, empty_rect, 0, 0, false, false, false⟩

/-- The upper handle of `c3_state`. -/
def c3_handle1 : ui_adaptor := ⟨1, empty_rect, 0, 0, false, false, false⟩

/-- Witness for C3 at a concrete two-handle stack: the lower (eligible)
handle's resize callback is invoked exactly once by `screen_resized`. -/
theorem c3_screen_resized_resizes_once_first_witness :
    (c3_state.ui_stack = [] ++ c3_handle0 :: [c3_handle1] ∧
      blocked_above [c3_handle1] = false ∧
      (c3_state.ui_stack.map ui_adaptor.uid).Nodup) ∧
    ((ui_manager.screen_resized c1_env c3_state).2).count
      (ui_event.resize_call c3_handle0.uid) = 1 :=
  ⟨⟨by decide, by decide, by decide⟩,
    (c3_screen_resized_resizes_once_first c1_env c3_state).2.2 []
      c3_handle0 [c3_handle1] (by decide) (by decide) (by decide)⟩

/-- A one-handle stack with a clean dirty region for the C5 witness. -/
def c5_state : ui_manager_state := push_ui (init_state ⟨⟨0, 0⟩, ⟨80, 24⟩⟩) false

/-- The single, clean handle of `c5_state`. -/
def c5_handle : ui_adaptor := ⟨0, empty_rect, 0, 0, false, false, false⟩

/-- Witness for C5 at a concrete one-handle stack: with a rectangle not
intersecting the dirty region and the `invalidated` flag clear, the
handle's redraw callback is not invoked by `redraw_invalidated`. -/
theorem c5_redraw_invalidated_skips_clean_witness :
    (((resize_pass c1_env c5_state).1).ui_stack = [] ++ c5_handle :: [] ∧
      ((((resize_pass c1_env c5_state).1).ui_stack).map ui_adaptor.uid).Nodup ∧
      intersects_region c5_handle.dimensions
        ((resize_pass c1_env c5_state).1).dirty_region = false ∧
      c5_handle.invalidated = false) ∧
    ui_event.redraw_call c5_handle.uid ∉
      (ui_manager.redraw_invalidated c1_env c5_state).2 :=
  ⟨⟨by decide, by decide, by decide, by decide⟩,
    c5_redraw_invalidated_skips_clean c1_env c5_state [] [] c5_handle
      (by decide) (by decide) (by decide) (by decide)⟩

/-- The lower handle of `c4_state` after positioning and invalidation. -/
def c7_handle0 : ui_adaptor := ⟨0, c4_rect_a, 0, 0, false, true, false⟩

/-- The upper handle of `c4_state` after positioning and invalidation. -/
def c7_handle1 : ui_adaptor := ⟨1, c4_rect_b, 0, 0, false, true, false⟩

/-- Witness for C7 at the concrete two-panel state: the lower invalidated
handle is indeed redrawn by the pass. -/
theorem c7_redraw_order_clear_complete_witness :
    (c4_state.ui_stack = [] ++ c7_handle0 :: [c7_handle1] ∧
      blocked_above [c7_handle1] = false ∧
      intersects_region c7_handle0.dimensions c4_state.dirty_region = true) ∧
    ui_event.redraw_call c7_handle0.uid ∈ (redraw_pass c4_state).2 :=
  ⟨⟨by decide, by decide, by decide⟩,
    (c7_redraw_order_clear_complete c4_state).2.2 [] c7_handle0 [c7_handle1]
      (by decide) (by decide) (by decide)⟩

/-- The resize environment whose callback leaves a zero-width rectangle. -/
def c8_env : resize_env := fun _ => ⟨⟨3, 3⟩, ⟨3, 7⟩⟩

/-- A one-handle stack whose handle is marked for resize. -/
def c8_state : ui_manager_state :=
  mark_resize (push_ui (init_state ⟨⟨0, 0⟩, ⟨80, 24⟩⟩) false) 0

/-- The state after the resize pass ran the callback that left the
rectangle empty. -/
def c8_mid : ui_manager_state := (resize_pass c8_env c8_state).1

/-- The handle of `c8_mid`: its resize callback left a zero-width
rectangle. -/
def c8_handle : ui_adaptor := ⟨0, ⟨⟨3, 3⟩, ⟨3, 7⟩⟩, 0, 0, false, false, false⟩

/-- Witness for C8: after a resize callback leaves the rectangle empty,
the following redraw pass skips the handle (and no error state exists —
the pass is a total function). -/
theorem c8_empty_rectangle_skipped_witness :
    (c8_mid.ui_stack = [] ++ c8_handle :: [] ∧
      (c8_mid.ui_stack.map ui_adaptor.uid).Nodup ∧
      c8_handle.dimensions.is_empty = true) ∧
    ui_event.redraw_call c8_handle.uid ∉ (redraw_pass c8_mid).2 :=
  ⟨⟨by decide, by decide, by decide⟩,
    c8_empty_rectangle_skipped c8_mid [] [] c8_handle (by decide) (by decide)
      (by decide)⟩
